import Mathlib

set_option maxHeartbeats 1000000
set_option maxRecDepth 10000

namespace Monkey

/-- Outcome of a Go computation: a normal result, a returned `error`, or a
Go runtime panic (failed type assertion, index out of range, division by
zero).  `err` carries the `fmt.Errorf` message. -/
inductive Res (α : Type) where
  | ok (a : α)
  | err (msg : String)
  | crash
deriving DecidableEq, Repr

/- ===================== code/code.go : the instruction codec ============ -/

/-- Opcode byte values fixed by the `iota` enumeration in code/code.go. -/
def OpConstant : Nat := 0

/-- OpAdd opcode byte. -/
def OpAdd : Nat := 1

/-- OpPop opcode byte. -/
def OpPop : Nat := 2

/-- OpSub opcode byte. -/
def OpSub : Nat := 3

/-- OpMul opcode byte. -/
def OpMul : Nat := 4

/-- OpDiv opcode byte. -/
def OpDiv : Nat := 5

/-- OpTrue opcode byte. -/
def OpTrue : Nat := 6

/-- OpFalse opcode byte. -/
def OpFalse : Nat := 7

/-- OpEqual opcode byte. -/
def OpEqual : Nat := 8

/-- OpNotEqual opcode byte. -/
def OpNotEqual : Nat := 9

/-- OpGreaterThan opcode byte. -/
def OpGreaterThan : Nat := 10

/-- OpMinus opcode byte. -/
def OpMinus : Nat := 11

/-- OpBang opcode byte. -/
def OpBang : Nat := 12

/-- OpJumpNotTruthy opcode byte. -/
def OpJumpNotTruthy : Nat := 13

/-- OpJump opcode byte. -/
def OpJump : Nat := 14

/-- OpNull opcode byte. -/
def OpNull : Nat := 15

/-- OpGetGlobal opcode byte. -/
def OpGetGlobal : Nat := 16

/-- OpSetGlobal opcode byte. -/
def OpSetGlobal : Nat := 17

/-- code.Definition: an opcode's disassembly name and operand widths. -/
structure Definition where
  name : String
  operandWidths : List Nat
deriving DecidableEq, Repr

/-- The `definitions` map of code/code.go.  Note the entry for
`OpSetGlobal` (byte 17) carries the name "OpGetGlobal", exactly as in the
source. -/
def definitions : Nat → Option Definition
  | 0 => some ⟨"OpConstant", [2]⟩
  | 1 => some ⟨"OpAdd", []⟩
  | 3 => some ⟨"OpSub", []⟩
  | 4 => some ⟨"OpMul", []⟩
  | 5 => some ⟨"OpDiv", []⟩
  | 2 => some ⟨"OpPop", []⟩
  | 6 => some ⟨"OpTrue", []⟩
  | 7 => some ⟨"OpFalse", []⟩
  | 8 => some ⟨"OpEqual", []⟩
  | 9 => some ⟨"OpNotEqual", []⟩
  | 10 => some ⟨"OpGreaterThan", []⟩
  | 11 => some ⟨"OpMinus", []⟩
  | 12 => some ⟨"OpBang", []⟩
  | 13 => some ⟨"OpJumpNotTruthy", [2]⟩
  | 14 => some ⟨"OpJump", [2]⟩
  | 15 => some ⟨"OpNull", []⟩
  | 16 => some ⟨"OpGetGlobal", [2]⟩
  | 17 => some ⟨"OpGetGlobal", [2]⟩
  | _ => none

/-- code.Lookup: yields the definition or the error "opcode %d not
defined". -/
def Lookup (op : Nat) : Except String Definition :=
  match definitions op with
  | some d => .ok d
  | none => .error ("opcode " ++ toString op ++ " not defined")

/-- Big-endian bytes of uint16(o), as written by
binary.BigEndian.PutUint16 (the Go conversion truncates to 16 bits). -/
def putUint16 (o : Nat) : List Nat :=
  [o % 65536 / 256, o % 256]

/-- The operand bytes written by code.Make's loop.  The instruction buffer
is zero-initialised, so a slot whose width is not 2 — or for which no
operand was supplied — stays zero.  The case of more operands than widths
makes the Go loop index `OperandWidths` out of range (a panic); no call
site of this development reaches it, and the arm returns the bytes written
so far. -/
def operandSection : List Nat → List Nat → List Nat
  | [], _ => []
  | w :: ws, [] => List.replicate w 0 ++ operandSection ws []
  | w :: ws, o :: os =>
      (if w = 2 then putUint16 o else List.replicate w 0) ++ operandSection ws os

/-- code.Make: for an undefined opcode returns the empty byte slice (and
no error); otherwise the opcode byte followed by the operand section. -/
def Make (op : Nat) (operands : List Nat) : List Nat :=
  match definitions op with
  | none => []
  | some d => op :: operandSection d.operandWidths operands

/-- code.ReadUint16 applied to a byte slice: binary.BigEndian.Uint16
panics (crash) when fewer than two bytes remain. -/
def ReadUint16 : List Nat → Res Nat
  | b1 :: b2 :: _ => .ok (b1 * 256 + b2)
  | _ => .crash

/-- The loop body of code.ReadOperands over the remaining operand widths:
a width-2 slot reads a big-endian uint16 and advances the offset by two; a
slot of any other width is left zero (the `operands` array is
zero-initialised) and the offset still advances by the width. -/
def readOperandsAux : List Nat → List Nat → Res (List Nat × Nat)
  | [], _ => .ok ([], 0)
  | w :: ws, ins =>
      if w = 2 then
        match ins with
        | b1 :: b2 :: tail =>
            match readOperandsAux ws tail with
            | .ok (os, n) => .ok ((b1 * 256 + b2) :: os, 2 + n)
            | .err m => .err m
            | .crash => .crash
        | _ => .crash
      else
        match readOperandsAux ws (ins.drop w) with
        | .ok (os, n) => .ok (0 :: os, w + n)
        | .err m => .err m
        | .crash => .crash

/-- code.ReadOperands: decodes a definition's operands from the bytes
after the opcode, returning the operand values and the bytes consumed. -/
def ReadOperands (d : Definition) (ins : List Nat) : Res (List Nat × Nat) :=
  readOperandsAux d.operandWidths ins

/-- Decoding an instruction stream instruction by instruction: look the
opcode byte up, read its operands, and continue after them (the `i += 1 +
read` step of Instructions.String). -/
def decode (l : List Nat) : Res (List (Nat × List Nat)) :=
  match l with
  | [] => .ok []
  | b :: rest =>
      match definitions b with
      | none => .err ("opcode " ++ toString b ++ " not defined")
      | some d =>
          match readOperandsAux d.operandWidths rest with
          | .ok (os, n) =>
              match decode (rest.drop n) with
              | .ok tail => .ok ((b, os) :: tail)
              | .err m => .err m
              | .crash => .crash
          | .err m => .err m
          | .crash => .crash
termination_by l.length
decreasing_by simp [List.length_drop]; omega

/-- Concatenated Make-encoding of a decoded (opcode, operands) sequence. -/
def encodePairs (ps : List (Nat × List Nat)) : List Nat :=
  (ps.map fun p => Make p.1 p.2).flatten

/-- The "%04d" rendering of a byte offset in Instructions.String. -/
def pad4 (n : Nat) : String :=
  let s := toString n
  if s.length < 4 then String.mk (List.replicate (4 - s.length) '0') ++ s else s

/-- Instructions.fmtInstruction from code/code.go. -/
def fmtInstruction (d : Definition) (operands : List Nat) : String :=
  if operands.length ≠ d.operandWidths.length then
    "ERROR: operand len " ++ toString operands.length ++
      " does not match defined " ++ toString d.operandWidths.length ++ "\n"
  else
    match d.operandWidths.length with
    | 0 => d.name
    | 1 => d.name ++ " " ++ toString (operands.headD 0)
    | _ => "ERROR: unhandled operandCount for " ++ d.name ++ "\n"

/-- The loop of Instructions.String, carrying the byte offset `i`.  On an
undefined opcode the Go loop writes an ERROR line and `continue`s without
advancing `i`, spinning forever; that branch is modelled as the error it
would print and is unreachable from streams of defined opcodes. -/
def instructionsStringAux (i : Nat) (l : List Nat) : Res String :=
  match l with
  | [] => .ok ""
  | b :: rest =>
      match definitions b with
      | none => .err ("ERROR: opcode " ++ toString b ++ " not defined\n")
      | some d =>
          match readOperandsAux d.operandWidths rest with
          | .ok (os, n) =>
              match instructionsStringAux (i + 1 + n) (rest.drop n) with
              | .ok out => .ok (pad4 i ++ " " ++ fmtInstruction d os ++ "\n" ++ out)
              | .err m => .err m
              | .crash => .crash
          | .err m => .err m
          | .crash => .crash
termination_by l.length
decreasing_by simp [List.length_drop]; omega

/-- Instructions.String: the canonical disassembly of a byte stream. -/
def instructionsString (ins : List Nat) : Res String :=
  instructionsStringAux 0 ins

/- ===================== object/object.go : the value model ============= -/

/-- A hash-map key: object.HashKey is a (kind tag, uint64 value) pair. -/
abbrev HashKey := String × Nat

/-- The tagged universe of runtime values reachable by the bytecode VM:
object.Integer (int64), object.Boolean, object.String, object.Null,
object.Array, object.Hash (each entry stores the HashKey together with
the original key and the value, object.HashPair), and
object.CompiledFunction (instruction bytes, NumLocals, NumParameters).
object.Float, object.Error, object.ReturnValue, object.Function and
object.Builtin are never constructed or inspected by the code the claims
concern and are not modelled. -/
inductive Obj where
  | integer (value : Int)
  | boolean (value : Bool)
  | string (value : String)
  | null
  | array (elements : List Obj)
  | hash (pairs : List (HashKey × Obj × Obj))
  | compiledFunction (instructions : List Nat) (numLocals : Nat) (numParameters : Nat)

/-- The INTEGER_OBJ type tag. -/
def INTEGER_OBJ : String := "INTEGER"

/-- The BOOLEAN_OBJ type tag. -/
def BOOLEAN_OBJ : String := "BOOLEAN"

/-- The STRING_OBJ type tag. -/
def STRING_OBJ : String := "STRING"

/-- The NULL_OBJ type tag. -/
def NULL_OBJ : String := "NULL"

/-- The ARRAY_OBJ type tag. -/
def ARRAY_OBJ : String := "ARRAY"

/-- The HASH_OBJ type tag. -/
def HASH_OBJ : String := "HASH"

/-- The COMPILED_FUNCTION_OBJECT type tag. -/
def COMPILED_FUNCTION_OBJECT : String := "COMPILED_FUNCTION"

/-- Object.Type dispatch. -/
def Obj.type : Obj → String
  | .integer _ => INTEGER_OBJ
  | .boolean _ => BOOLEAN_OBJ
  | .string _ => STRING_OBJ
  | .null => NULL_OBJ
  | .array _ => ARRAY_OBJ
  | .hash _ => HASH_OBJ
  | .compiledFunction .. => COMPILED_FUNCTION_OBJECT

/-- 64-bit FNV-1a over a byte list, as hash/fnv's New64a + Write + Sum64. -/
def fnv1a64 (bytes : List Nat) : Nat :=
  bytes.foldl (fun h b => ((h ^^^ b % 256) * 1099511628211) % (2 ^ 64)) 14695981039346656037

/-- The HashKey of a value when it implements object.Hashable (Integer,
Boolean, String), none otherwise.  uint64(int64) reinterprets a negative
integer as its two's complement. -/
def hashKeyOf : Obj → Option HashKey
  | .integer i => some (INTEGER_OBJ, (i % (2 ^ 64)).toNat)
  | .boolean b => some (BOOLEAN_OBJ, if b then 1 else 0)
  | .string s => some (STRING_OBJ, fnv1a64 (s.toUTF8.toList.map UInt8.toNat))
  | _ => none

/- ===================== vm/vm.go : the stack machine ==================== -/

/-- vm.StackSize. -/
def StackSize : Nat := 2048

/-- vm.GlobalsSize. -/
def GlobalsSize : Nat := 65536

/-- vm.MaxFrames. -/
def MaxFrames : Nat := 1024

/-- The live value stack, top first: element k of the list is
vm.stack[sp-1-k], and the list length is sp. -/
abbrev Stack := List Obj

/-- vm.push: at sp == StackSize returns the error "stack overflow",
otherwise stores the value at the top and increments sp. -/
def push (obj : Obj) (s : Stack) : Res Stack :=
  if StackSize ≤ s.length then .err "stack overflow" else .ok (obj :: s)

/-- Pointer identity of two Go interface values as reachable through the
VM's comparison paths: True, False and Null are canonical singletons, so
two booleans or two nulls are identical exactly when they are equal; any
other pair of operands reaching this comparison consists of separately
allocated objects and compares unequal.  (Integers never reach it — the
integer path is taken first.) -/
def goIdentityEq : Obj → Obj → Bool
  | .boolean a, .boolean b => a = b
  | .null, .null => true
  | _, _ => false

/-- vm.nativeBoolToBooleanObject. -/
def nativeBoolToBooleanObject (input : Bool) : Obj :=
  .boolean input

/-- int64 arithmetic wraparound: Go's fixed-width two's-complement. -/
def wrap64 (x : Int) : Int :=
  (x + 2 ^ 63) % 2 ^ 64 - 2 ^ 63

/-- vm.executeBinaryIntegerOperation: both operands are asserted to be
*object.Integer (a failed assertion is a runtime panic), the result is
computed in int64 (division by zero panics; Go integer division truncates
toward zero and wraps on overflow) and pushed. -/
def executeBinaryIntegerOperation (op : Nat) (left right : Obj) (s : Stack) : Res Stack :=
  match left, right with
  | .integer leftValue, .integer rightValue =>
      if op = OpAdd then push (.integer (wrap64 (leftValue + rightValue))) s
      else if op = OpSub then push (.integer (wrap64 (leftValue - rightValue))) s
      else if op = OpMul then push (.integer (wrap64 (leftValue * rightValue))) s
      else if op = OpDiv then
        if rightValue = 0 then .crash
        else push (.integer (wrap64 (Int.tdiv leftValue rightValue))) s
      else .err ("unknown integer operator: " ++ toString op)
  | _, _ => .crash

/-- vm.executeBinaryStringOperation: rejects any opcode but OpAdd, then
asserts both operands to be *object.String and pushes the concatenation. -/
def executeBinaryStringOperation (op : Nat) (left right : Obj) (s : Stack) : Res Stack :=
  if op ≠ OpAdd then .err ("unknown string operator: " ++ toString op)
  else
    match left, right with
    | .string leftValue, .string rightValue => push (.string (leftValue ++ rightValue)) s
    | _, _ => .crash

/-- vm.executeBinaryOperation: pops right then left; both `rightType` and
`leftType` read right.Type() (the source assigns `leftType :=
right.Type()`), dispatches on them, and otherwise reports "unsupported
types for binary operation: <leftType> <rightType>".  Popping from an
empty or one-element stack indexes below the stack and panics. -/
def executeBinaryOperation (op : Nat) (s : Stack) : Res Stack :=
  match s with
  | right :: left :: rest =>
      let rightType := right.type
      let leftType := right.type
      if leftType = INTEGER_OBJ ∧ rightType = INTEGER_OBJ then
        executeBinaryIntegerOperation op left right rest
      else if leftType = STRING_OBJ ∧ rightType = STRING_OBJ then
        executeBinaryStringOperation op left right rest
      else
        .err ("unsupported types for binary operation: " ++ leftType ++ " " ++ rightType)
  | _ => .crash

/-- vm.executeIntegerComparison. -/
def executeIntegerComparison (op : Nat) (left right : Obj) (s : Stack) : Res Stack :=
  match left, right with
  | .integer leftValue, .integer rightValue =>
      if op = OpEqual then push (nativeBoolToBooleanObject (rightValue = leftValue)) s
      else if op = OpNotEqual then push (nativeBoolToBooleanObject (rightValue ≠ leftValue)) s
      else if op = OpGreaterThan then push (nativeBoolToBooleanObject (leftValue > rightValue)) s
      else .err ("unknown operator: " ++ toString op)
  | _, _ => .crash

/-- vm.executeComparison: pops right then left; integers compare by
value, anything else by interface identity for OpEqual/OpNotEqual. -/
def executeComparison (op : Nat) (s : Stack) : Res Stack :=
  match s with
  | right :: left :: rest =>
      if left.type = INTEGER_OBJ ∧ right.type = INTEGER_OBJ then
        executeIntegerComparison op left right rest
      else if op = OpEqual then push (nativeBoolToBooleanObject (goIdentityEq right left)) rest
      else if op = OpNotEqual then push (nativeBoolToBooleanObject (¬goIdentityEq right left)) rest
      else
        .err ("unknown operator: " ++ toString op ++ " (" ++ left.type ++ " " ++ right.type ++ ")")
  | _ => .crash

/-- vm.executeBangOperator: pops the operand and dispatches on the True,
False and Null singletons; everything else maps to False. -/
def executeBangOperator (s : Stack) : Res Stack :=
  match s with
  | operand :: rest =>
      match operand with
      | .boolean true => push (.boolean false) rest
      | .boolean false => push (.boolean true) rest
      | .null => push (.boolean true) rest
      | _ => push (.boolean false) rest
  | _ => .crash

/-- vm.executeMinusOperator. -/
def executeMinusOperator (s : Stack) : Res Stack :=
  match s with
  | operand :: rest =>
      if operand.type ≠ INTEGER_OBJ then
        .err ("unsupported type for negation: " ++ operand.type)
      else
        match operand with
        | .integer value => push (.integer (wrap64 (-value))) rest
        | _ => .crash
  | _ => .crash

/-- vm.executeArrayIndex: asserts the collection to *object.Array and the
index to *object.Integer, pushes Null when the index is below zero or
above len-1, and the element otherwise (the in-range Go access cannot
fail; an out-of-range access would panic). -/
def executeArrayIndex (array index : Obj) (s : Stack) : Res Stack :=
  match array, index with
  | .array elements, .integer i =>
      let mx : Int := (elements.length : Int) - 1
      if i < 0 ∨ i > mx then push .null s
      else
        match elements.get? i.toNat with
        | some e => push e s
        | none => .crash
  | _, _ => .crash

/-- vm.executeHashIndex: asserts *object.Hash, requires a hashable key
(else "unusable as hash key: <kind>"), pushes Null on an absent key and
the stored pair's value otherwise. -/
def executeHashIndex (hash index : Obj) (s : Stack) : Res Stack :=
  match hash with
  | .hash pairs =>
      match hashKeyOf index with
      | none => .err ("unusable as hash key: " ++ index.type)
      | some key =>
          match pairs.find? (fun p => p.1 == key) with
          | none => push .null s
          | some pair => push pair.2.2 s
  | _ => .crash

/-- vm.executeIndexExpression: dispatch on the collection's kind. -/
def executeIndexExpression (left index : Obj) (s : Stack) : Res Stack :=
  if left.type = ARRAY_OBJ ∧ index.type = INTEGER_OBJ then
    executeArrayIndex left index s
  else if left.type = HASH_OBJ then
    executeHashIndex left index s
  else
    .err ("index operator not supported: " ++ left.type)

/-- The OpIndex case of vm.Run: the first pop (named `left` in the
source) is passed as the index argument and the second pop (named
`index`) as the collection argument of executeIndexExpression. -/
def opIndexStep (s : Stack) : Res Stack :=
  match s with
  | l :: idx :: rest => executeIndexExpression idx l rest
  | _ => .crash

/-- vm.Frame: the function being executed, its instruction pointer
(initialised to -1), and the base pointer into the value stack. -/
structure Frame where
  fn : Obj
  ip : Int
  basePointer : Nat

/-- vm.NewFrame. -/
def NewFrame (fn : Obj) (basePointer : Nat) : Frame :=
  { fn := fn, ip := -1, basePointer := basePointer }

/-- The call-related VM state: the value-stack slots (index 0 first; a
missing entry is a slot never written, Go's nil), the stack pointer, and
the active call frames (frames[0] .. frames[framesIndex-1]). -/
structure VMC where
  stack : List Obj
  sp : Nat
  frames : List Frame

/-- A read of vm.stack[i]: the slice has fixed length StackSize, so an
index outside [0, StackSize) panics; a slot inside the slice that was
never written holds nil (modelled as none). -/
def readSlot (slots : List Obj) (i : Int) : Res (Option Obj) :=
  if i < 0 ∨ (StackSize : Int) ≤ i then .crash
  else .ok (slots.get? i.toNat)

/-- vm.pushFrame: writes frames[framesIndex] and increments framesIndex.
The frames slice has fixed length MaxFrames and the source performs no
capacity check, so at framesIndex == MaxFrames the write indexes out of
range and panics. -/
def pushFrame (vm : VMC) (f : Frame) : Res VMC :=
  if vm.frames.length < MaxFrames then .ok { vm with frames := vm.frames ++ [f] }
  else .crash

/-- vm.callFunction: asserts the callee at stack[sp-1-numArgs] to be a
*object.CompiledFunction (else "calling non-function"), checks the arity
(else "wrong number of arguments: want=<P>, got=<N>"), pushes a frame
with basePointer = sp - numArgs, and reserves the local slots by setting
sp = basePointer + NumLocals. -/
def callFunction (vm : VMC) (numArgs : Nat) : Res VMC :=
  match readSlot vm.stack ((vm.sp : Int) - 1 - numArgs) with
  | .crash => .crash
  | .err m => .err m
  | .ok slot =>
      match slot with
      | some (Obj.compiledFunction ins numLocals numParameters) =>
          if numParameters ≠ numArgs then
            .err ("wrong number of arguments: want=" ++ toString numParameters ++
              ", got=" ++ toString numArgs)
          else
            let frame := NewFrame (Obj.compiledFunction ins numLocals numParameters)
              (vm.sp - numArgs)
            match pushFrame vm frame with
            | .ok vm2 => .ok { vm2 with sp := frame.basePointer + numLocals }
            | .err m => .err m
            | .crash => .crash
      | _ => .err "calling non-function"

/- ============== compiler/compiler.go : AST lowering ==================== -/

/-- The expression forms this compiler revision lowers:
ast.IntegerLiteral, ast.Boolean, ast.PrefixExpression and
ast.InfixExpression (operators are the source strings). -/
inductive Expr where
  | integerLiteral (value : Int)
  | boolean (value : Bool)
  | prefixExpression (operator : String) (right : Expr)
  | infixExpression (operator : String) (left : Expr) (right : Expr)

/-- The statement form this compiler revision lowers:
ast.ExpressionStatement.  (Other statement nodes fall through the
source's type switch without emitting anything.) -/
inductive Stmt where
  | expressionStatement (expression : Expr)

/-- compiler.Compiler: the generated instruction bytes and the constant
pool. -/
structure Compiler where
  instructions : List Nat
  constants : List Obj

/-- compiler.New. -/
def newCompiler : Compiler :=
  { instructions := [], constants := [] }

/-- Compiler.addConstant: appends to the pool and returns the constant's
index. -/
def addConstant (c : Compiler) (obj : Obj) : Compiler × Nat :=
  ({ c with constants := c.constants ++ [obj] }, c.constants.length)

/-- Compiler.emit / addInstruction: appends the Make-encoding of the
instruction to the instruction buffer. -/
def emit (c : Compiler) (op : Nat) (operands : List Nat) : Compiler :=
  { c with instructions := c.instructions ++ Make op operands }

/-- The expression cases of Compiler.Compile.  For `<` the right operand
is compiled before the left and OpGreaterThan is emitted; every other
infix operator compiles left then right; unknown operators fail with
"unknown operator <op>". -/
def compileExpr : Expr → Compiler → Except String Compiler
  | .integerLiteral value, c =>
      let p := addConstant c (.integer value)
      .ok (emit p.1 OpConstant [p.2])
  | .boolean value, c =>
      .ok (if value then emit c OpTrue [] else emit c OpFalse [])
  | .prefixExpression operator right, c =>
      match compileExpr right c with
      | .error e => .error e
      | .ok c1 =>
          if operator = "!" then .ok (emit c1 OpBang [])
          else if operator = "-" then .ok (emit c1 OpMinus [])
          else .error ("unknown operator " ++ operator)
  | .infixExpression operator left right, c =>
      if operator = "<" then
        match compileExpr right c with
        | .error e => .error e
        | .ok c1 =>
            match compileExpr left c1 with
            | .error e => .error e
            | .ok c2 => .ok (emit c2 OpGreaterThan [])
      else
        match compileExpr left c with
        | .error e => .error e
        | .ok c1 =>
            match compileExpr right c1 with
            | .error e => .error e
            | .ok c2 =>
                if operator = "+" then .ok (emit c2 OpAdd [])
                else if operator = "-" then .ok (emit c2 OpSub [])
                else if operator = "/" then .ok (emit c2 OpDiv [])
                else if operator = "*" then .ok (emit c2 OpMul [])
                else if operator = ">" then .ok (emit c2 OpGreaterThan [])
                else if operator = "==" then .ok (emit c2 OpEqual [])
                else if operator = "!=" then .ok (emit c2 OpNotEqual [])
                else .error ("unknown operator " ++ operator)

/-- The ast.ExpressionStatement case of Compiler.Compile: compile the
expression, then emit OpPop. -/
def compileStmt : Stmt → Compiler → Except String Compiler
  | .expressionStatement expression, c =>
      match compileExpr expression c with
      | .error e => .error e
      | .ok c1 => .ok (emit c1 OpPop [])

/-- The ast.Program case of Compiler.Compile: compile the statements in
order, aborting on the first error. -/
def compileProgram : List Stmt → Compiler → Except String Compiler
  | [], c => .ok c
  | s :: rest, c =>
      match compileStmt s c with
      | .error e => .error e
      | .ok c1 => compileProgram rest c1

/- ============== compiler symbol table ================================== -/

/-- compiler.GlobalScope. -/
def GlobalScope : String := "GLOBAL"

/-- compiler.LocalScope. -/
def LocalScope : String := "LOCAL"

/-- compiler.BuiltinScope. -/
def BuiltinScope : String := "BUILTIN"

/-- compiler.Symbol. -/
structure Symbol where
  name : String
  scope : String
  index : Nat
deriving DecidableEq, Repr

/-- compiler.SymbolTable: the nil-able `Outer` pointer is encoded by the
constructor — `global` is a table whose Outer is nil, `enclosed` carries
its outer table.  The name→Symbol map is an assoc list where the most
recent binding comes first, and numDefinitions is the counter. -/
inductive SymbolTable where
  | global (store : List (String × Symbol)) (numDefinitions : Nat)
  | enclosed (outer : SymbolTable) (store : List (String × Symbol)) (numDefinitions : Nat)

/-- The Outer pointer (none encodes Go's nil). -/
def SymbolTable.outer : SymbolTable → Option SymbolTable
  | .global _ _ => none
  | .enclosed o _ _ => some o

/-- Store accessor. -/
def SymbolTable.store : SymbolTable → List (String × Symbol)
  | .global s _ => s
  | .enclosed _ s _ => s

/-- numDefinitions accessor. -/
def SymbolTable.numDefinitions : SymbolTable → Nat
  | .global _ n => n
  | .enclosed _ _ n => n

/-- compiler.NewSymbolTable. -/
def NewSymbolTable : SymbolTable := .global [] 0

/-- compiler.NewEnclosedSymbolTable. -/
def NewEnclosedSymbolTable (outer : SymbolTable) : SymbolTable := .enclosed outer [] 0

/-- A read of the Go map `store` (first binding for the name wins). -/
def lookupStore (store : List (String × Symbol)) (name : String) : Option Symbol :=
  match store.find? (fun p => p.1 == name) with
  | some p => some p.2
  | none => none

/-- SymbolTable.Define: the new symbol's index is the current
numDefinitions; its scope is Global exactly when the table has no outer
(the `global` constructor), Local otherwise; the store is updated and the
counter incremented. -/
def SymbolTable.Define (st : SymbolTable) (name : String) : SymbolTable × Symbol :=
  match st with
  | .global store cnt =>
      let symbol : Symbol := { name := name, scope := GlobalScope, index := cnt }
      (.global ((name, symbol) :: store) (cnt + 1), symbol)
  | .enclosed o store cnt =>
      let symbol : Symbol := { name := name, scope := LocalScope, index := cnt }
      (.enclosed o ((name, symbol) :: store) (cnt + 1), symbol)

/-- SymbolTable.DefineBuiltin: stores a Builtin-scope symbol without
touching numDefinitions. -/
def SymbolTable.DefineBuiltin (st : SymbolTable) (index : Nat) (name : String) :
    SymbolTable × Symbol :=
  let symbol : Symbol := { name := name, scope := BuiltinScope, index := index }
  match st with
  | .global store cnt => (.global ((name, symbol) :: store) cnt, symbol)
  | .enclosed o store cnt => (.enclosed o ((name, symbol) :: store) cnt, symbol)

/-- SymbolTable.Resolve: look the name up locally; on a miss, delegate to
the outer table when there is one. -/
def SymbolTable.Resolve : SymbolTable → String → Option Symbol
  | .global store _, name => lookupStore store name
  | .enclosed o store _, name =>
      match lookupStore store name with
      | some s => some s
      | none => o.Resolve name

/- ============== vm.Run on straight-line code =========================== -/

/-- The fetch-dispatch loop of vm.Run restricted to the opcode subset the
embedded compiler revision can emit (OpConstant, the four binary
arithmetic opcodes, OpPop, OpTrue, OpFalse, the three comparisons,
OpMinus, OpBang) plus OpNull; this code is straight-line, so the loop is
a simple walk over the byte list.  Opcodes outside this subset are never
produced by compileProgram; the catch-all arm skips such a byte exactly
as Run's case-less switch would for opcodes the loop does not handle
(jumps, globals, aggregates and calls are not modelled here). -/
def exec (constants : List Obj) (l : List Nat) (s : Stack) : Res Stack :=
  match l with
  | [] => .ok s
  | b :: bs =>
      match b with
      | 0 =>
          match bs with
          | b1 :: b2 :: bs2 =>
              match constants.get? (b1 * 256 + b2) with
              | none => .crash
              | some obj =>
                  match push obj s with
                  | .ok s2 => exec constants bs2 s2
                  | .err m => .err m
                  | .crash => .crash
          | _ => .crash
      | 1 | 3 | 4 | 5 =>
          match executeBinaryOperation b s with
          | .ok s2 => exec constants bs s2
          | .err m => .err m
          | .crash => .crash
      | 2 =>
          match s with
          | _ :: rest => exec constants bs rest
          | [] => .crash
      | 6 =>
          match push (.boolean true) s with
          | .ok s2 => exec constants bs s2
          | .err m => .err m
          | .crash => .crash
      | 7 =>
          match push (.boolean false) s with
          | .ok s2 => exec constants bs s2
          | .err m => .err m
          | .crash => .crash
      | 8 | 9 | 10 =>
          match executeComparison b s with
          | .ok s2 => exec constants bs s2
          | .err m => .err m
          | .crash => .crash
      | 11 =>
          match executeMinusOperator s with
          | .ok s2 => exec constants bs s2
          | .err m => .err m
          | .crash => .crash
      | 12 =>
          match executeBangOperator s with
          | .ok s2 => exec constants bs s2
          | .err m => .err m
          | .crash => .crash
      | 15 =>
          match push .null s with
          | .ok s2 => exec constants bs s2
          | .err m => .err m
          | .crash => .crash
      | _ => exec constants bs s

/- ========== verification predicates for compiled code ================= -/

/-- A byte sequence that extends any decodable stream: decoding it in
front of a decodable rest succeeds and contributes a prefix of decoded
pairs. -/
def DecExt (δ : List Nat) : Prop :=
  ∀ rest ps, decode rest = .ok ps → ∃ ps2, decode (δ ++ rest) = .ok (ps2 ++ ps)

/-- Stack effect of a compiled expression: running it ahead of any
continuation either continues with exactly one value pushed, or fails
with a VM error or a panic. -/
def ExprEffect (δ : List Nat) : Prop :=
  ∀ K rest s, (∃ v, exec K (δ ++ rest) s = exec K rest (v :: s)) ∨
    (∃ m, exec K (δ ++ rest) s = Res.err m) ∨ exec K (δ ++ rest) s = Res.crash

/-- Stack effect of a compiled statement sequence: running it ahead of
any continuation either continues with the stack unchanged, or fails. -/
def StmtEffect (δ : List Nat) : Prop :=
  ∀ K rest s, exec K (δ ++ rest) s = exec K rest s ∨
    (∃ m, exec K (δ ++ rest) s = Res.err m) ∨ exec K (δ ++ rest) s = Res.crash

/-- What compiling an expression adds to a compiler: an appended byte
sequence that is made of real bytes, decodes cleanly, and pushes exactly
one value when run. -/
def CompiledCode (c c' : Compiler) : Prop :=
  ∃ δ, c'.instructions = c.instructions ++ δ ∧ (∀ b ∈ δ, b < 256) ∧
    DecExt δ ∧ ExprEffect δ

/-- What compiling statements adds to a compiler. -/
def CompiledStmts (c c' : Compiler) : Prop :=
  ∃ δ, c'.instructions = c.instructions ++ δ ∧ (∀ b ∈ δ, b < 256) ∧
    DecExt δ ∧ StmtEffect δ

/- ===================== helper lemmas =================================== -/

/-- wrap64 is the identity on the int64 range. -/
theorem wrap64_eq_self (x : Int) (h : -(2 ^ 63) ≤ x ∧ x < 2 ^ 63) : wrap64 x = x := by
  unfold wrap64
  omega

/-- Truncating division of int64 values stays in the int64 range except
at MinInt64 / -1. -/
theorem tdiv_in_range (l r : Int)
    (hl : -(2 ^ 63) ≤ l ∧ l < 2 ^ 63) (hr64 : -(2 ^ 63) ≤ r ∧ r < 2 ^ 63)
    (hr : r ≠ 0) (hnot : ¬(l = -(2 ^ 63) ∧ r = -1)) :
    -(2 ^ 63) ≤ Int.tdiv l r ∧ Int.tdiv l r < 2 ^ 63 := by
  have habs : (Int.tdiv l r).natAbs = l.natAbs / r.natAbs := Int.natAbs_tdiv l r
  by_cases hmin : l = -(2 ^ 63)
  · subst hmin
    by_cases hr1 : r = 1
    · subst hr1
      rw [Int.tdiv_one]
      omega
    · have h2 : 2 ≤ r.natAbs := by omega
      have hd : Int.natAbs (-(2 ^ 63)) / r.natAbs ≤ Int.natAbs (-(2 ^ 63)) / 2 :=
        Nat.div_le_div_left h2 (by norm_num)
      generalize hq : Int.natAbs (-(2 ^ 63)) / r.natAbs = q at habs hd
      omega
  · have hd : l.natAbs / r.natAbs ≤ l.natAbs := Nat.div_le_self _ _
    generalize hq : l.natAbs / r.natAbs = q at habs hd
    omega

/-- Reading a width-2 operand consumes two bytes. -/
theorem readOperandsAux_two (x y : Nat) (tail : List Nat) :
    readOperandsAux [2] (x :: y :: tail) = .ok ([x * 256 + y], 2) := rfl

/-- Reading an empty width list consumes nothing. -/
theorem readOperandsAux_nil (ins : List Nat) : readOperandsAux [] ins = .ok ([], 0) := rfl

/-- encodePairs unfolds on a cons. -/
theorem encodePairs_cons (p : Nat × List Nat) (ps : List (Nat × List Nat)) :
    encodePairs (p :: ps) = Make p.1 p.2 ++ encodePairs ps := rfl

/-- decode of the empty stream. -/
theorem decode_nil : decode [] = .ok [] := by
  rw [decode.eq_def]

/-- decode unfolds on a cons. -/
theorem decode_cons (b : Nat) (rest : List Nat) :
    decode (b :: rest) =
      (match definitions b with
       | none => .err ("opcode " ++ toString b ++ " not defined")
       | some d =>
           match readOperandsAux d.operandWidths rest with
           | .ok (os, n) =>
               match decode (rest.drop n) with
               | .ok tail => .ok ((b, os) :: tail)
               | .err m => .err m
               | .crash => .crash
           | .err m => .err m
           | .crash => .crash) := by
  rw [decode.eq_def]

/-- decode of an instruction with a defined opcode, after its operands
were read successfully. -/
theorem decode_step (b : Nat) (d : Definition) (hd : definitions b = some d)
    (rest os : List Nat) (n : Nat)
    (hro : readOperandsAux d.operandWidths rest = .ok (os, n)) :
    decode (b :: rest) =
      (match decode (rest.drop n) with
       | .ok tail => .ok ((b, os) :: tail)
       | .err m => .err m
       | .crash => .crash) := by
  rw [decode_cons, hd]
  simp only [hro]

/-- Fully successful decode of one instruction ahead of a stream. -/
theorem decode_step_ok (b : Nat) (d : Definition) (hd : definitions b = some d)
    (rest os : List Nat) (n : Nat) (ps : List (Nat × List Nat))
    (hro : readOperandsAux d.operandWidths rest = .ok (os, n))
    (hdec : decode (rest.drop n) = .ok ps) :
    decode (b :: rest) = .ok ((b, os) :: ps) := by
  rw [decode_step b d hd rest os n hro, hdec]

/-- Every entry of the definition table has an opcode byte below 256 and
operand widths [2] or []. -/
theorem defShape (op : Nat) (d : Definition) (h : definitions op = some d) :
    op < 256 ∧ (d.operandWidths = [2] ∨ d.operandWidths = []) := by
  unfold definitions at h
  split at h <;> first
    | exact Option.noConfusion h
    | (injection h with h2; subst h2; exact ⟨by norm_num, by simp⟩)

/-- A successful push prepends the value. -/
theorem push_ok (v : Obj) (s s2 : Stack) (h : push v s = .ok s2) : s2 = v :: s := by
  unfold push at h
  split at h
  · exact Res.noConfusion h
  · injection h with h
    exact h.symm

/-- push never panics. -/
theorem push_not_crash (v : Obj) (s : Stack) (h : push v s = .crash) : False := by
  unfold push at h
  split at h <;> exact Res.noConfusion h

/-- Operand bytes produced for a table-shaped width list are bytes. -/
theorem operandSection_bytes (ws os : List Nat) (hsh : ws = [2] ∨ ws = []) :
    ∀ b ∈ operandSection ws os, b < 256 := by
  rcases hsh with rfl | rfl
  · cases os with
    | nil =>
        intro b hb
        simp [operandSection] at hb
        omega
    | cons o os =>
        intro b hb
        simp [operandSection, putUint16] at hb
        rcases hb with rfl | rfl <;> omega
  · intro b hb
    simp [operandSection] at hb

/-- Make produces bytes. -/
theorem make_bytes (op : Nat) (d : Definition) (os : List Nat)
    (hop : definitions op = some d) :
    ∀ b ∈ Make op os, b < 256 := by
  obtain ⟨h256, hsh⟩ := defShape op d hop
  rw [Make, hop]
  intro b hb
  rcases List.mem_cons.mp hb with rfl | hb
  · exact h256
  · exact operandSection_bytes d.operandWidths os hsh b hb

/-- Operands decoded by ReadOperands from a table-shaped width list
re-encode to exactly the consumed bytes. -/
theorem readOperands_make (ws : List Nat) (hsh : ws = [2] ∨ ws = [])
    (ins os : List Nat) (n : Nat)
    (hb : ∀ b ∈ ins, b < 256)
    (h : readOperandsAux ws ins = .ok (os, n)) :
    operandSection ws os = ins.take n ∧ n ≤ ins.length := by
  rcases hsh with rfl | rfl
  · match ins with
    | [] => exact Res.noConfusion h
    | [x] => exact Res.noConfusion h
    | x :: y :: tail =>
        rw [readOperandsAux_two] at h
        simp only [Res.ok.injEq, Prod.mk.injEq] at h
        obtain ⟨rfl, rfl⟩ := h
        have hx : x < 256 := hb x (by simp)
        have hy : y < 256 := hb y (by simp)
        constructor
        · show operandSection [2] [x * 256 + y] = List.take 2 (x :: y :: tail)
          simp [operandSection, putUint16]
          constructor <;> omega
        · simp
  · rw [readOperandsAux_nil] at h
    simp only [Res.ok.injEq, Prod.mk.injEq] at h
    obtain ⟨rfl, rfl⟩ := h
    exact ⟨rfl, Nat.zero_le _⟩

/-- Re-encoding a successfully decoded byte stream reproduces it
byte-for-byte. -/
theorem decode_encode (ps : List (Nat × List Nat)) :
    ∀ ins, (∀ b ∈ ins, b < 256) → decode ins = .ok ps → encodePairs ps = ins := by
  induction ps with
  | nil =>
      intro ins hb h
      match ins with
      | [] => rfl
      | b :: rest =>
          rw [decode_cons] at h
          split at h
          · exact Res.noConfusion h
          · split at h
            · split at h
              · exact absurd h (by simp)
              · exact Res.noConfusion h
              · exact Res.noConfusion h
            · exact Res.noConfusion h
            · exact Res.noConfusion h
  | cons p ps ih =>
      obtain ⟨op, os⟩ := p
      intro ins hb h
      match ins with
      | [] =>
          rw [decode_nil] at h
          exact absurd h (by simp)
      | b :: rest =>
          rw [decode_cons] at h
          split at h
          · exact Res.noConfusion h
          · rename_i d hd
            split at h
            · rename_i pr os0 n hro
              split at h
              · rename_i tail hdec2
                simp only [Res.ok.injEq, List.cons.injEq, Prod.mk.injEq] at h
                obtain ⟨⟨rfl, rfl⟩, rfl⟩ := h
                obtain ⟨h256, hsh⟩ := defShape b d hd
                obtain ⟨hsec, hn⟩ := readOperands_make d.operandWidths hsh rest os0 n
                  (fun x hx => hb x (List.mem_cons_of_mem _ hx)) hro
                have htail := ih (rest.drop n)
                  (fun x hx => hb x (List.mem_cons_of_mem _ (List.mem_of_mem_drop hx)))
                  hdec2
                have hmk : Make b os0 = b :: operandSection d.operandWidths os0 := by
                  rw [Make, hd]
                rw [encodePairs_cons]
                show Make b os0 ++ encodePairs tail = b :: rest
                rw [hmk, htail, hsec]
                simp [List.take_append_drop]
              · exact Res.noConfusion h
              · exact Res.noConfusion h
            · exact Res.noConfusion h
            · exact Res.noConfusion h

/-- Decoding a Make-encoded instruction in front of a decodable stream
prepends one decoded pair (the operand comes back reduced mod 2^16). -/
theorem decode_make_cons (op : Nat) (d : Definition) (os : List Nat)
    (hop : definitions op = some d) (hlen : os.length = d.operandWidths.length)
    (rest : List Nat) (ps : List (Nat × List Nat)) (hdec : decode rest = .ok ps) :
    ∃ os2, decode (Make op os ++ rest) = .ok ((op, os2) :: ps) := by
  obtain ⟨h256, hsh⟩ := defShape op d hop
  rcases hsh with hw | hw
  · rw [hw] at hlen
    match os, hlen with
    | [o], _ =>
        refine ⟨[o % 65536], ?_⟩
        have hmk1 : Make op [o] = op :: operandSection d.operandWidths [o] := by
          rw [Make, hop]
        have hmk : Make op [o] ++ rest =
            op :: (o % 65536 / 256 :: o % 256 :: rest) := by
          rw [hmk1, hw]
          simp [operandSection, putUint16]
        rw [hmk]
        have hro : readOperandsAux d.operandWidths (o % 65536 / 256 :: o % 256 :: rest) =
            .ok ([o % 65536 / 256 * 256 + o % 256], 2) := by
          rw [hw]
          exact readOperandsAux_two _ _ _
        have harith : o % 65536 / 256 * 256 + o % 256 = o % 65536 := by omega
        rw [harith] at hro
        exact decode_step_ok op d hop _ _ 2 ps hro hdec
  · rw [hw] at hlen
    match os, hlen with
    | [], _ =>
        refine ⟨[], ?_⟩
        have hmk1 : Make op [] = op :: operandSection d.operandWidths [] := by
          rw [Make, hop]
        have hmk : Make op [] ++ rest = op :: rest := by
          rw [hmk1, hw]
          rfl
        rw [hmk]
        have hro : readOperandsAux d.operandWidths rest = .ok ([], 0) := by
          rw [hw]
          exact readOperandsAux_nil _
        exact decode_step_ok op d hop _ _ 0 ps hro hdec

/-- A Make-encoded instruction with the right operand count extends any
decodable stream. -/
theorem decExt_make (op : Nat) (d : Definition) (os : List Nat)
    (hop : definitions op = some d) (hlen : os.length = d.operandWidths.length) :
    DecExt (Make op os) := by
  intro rest ps h
  obtain ⟨os2, h2⟩ := decode_make_cons op d os hop hlen rest ps h
  exact ⟨[(op, os2)], h2⟩

/-- DecExt composes over concatenation. -/
theorem decExt_append (a b : List Nat) (ha : DecExt a) (hb : DecExt b) :
    DecExt (a ++ b) := by
  intro rest ps h
  obtain ⟨ps2, h2⟩ := hb rest ps h
  obtain ⟨ps1, h1⟩ := ha (b ++ rest) (ps2 ++ ps) h2
  refine ⟨ps1 ++ ps2, ?_⟩
  rw [List.append_assoc, h1, List.append_assoc]

/-- A successful integer binary operation pushes one value. -/
theorem executeBinaryIntegerOperation_ok (op : Nat) (l r : Obj) (s s2 : Stack)
    (h : executeBinaryIntegerOperation op l r s = .ok s2) : ∃ w, s2 = w :: s := by
  unfold executeBinaryIntegerOperation at h
  split at h <;> first
    | exact Res.noConfusion h
    | (split_ifs at h <;> first
        | exact ⟨_, push_ok _ _ _ h⟩
        | exact Res.noConfusion h)

/-- A successful string binary operation pushes one value. -/
theorem executeBinaryStringOperation_ok (op : Nat) (l r : Obj) (s s2 : Stack)
    (h : executeBinaryStringOperation op l r s = .ok s2) : ∃ w, s2 = w :: s := by
  unfold executeBinaryStringOperation at h
  split_ifs at h <;> first
    | exact Res.noConfusion h
    | (split at h <;> first
        | exact ⟨_, push_ok _ _ _ h⟩
        | exact Res.noConfusion h)

/-- A successful binary operation pops two values and pushes one. -/
theorem executeBinaryOperation_ok (op : Nat) (v2 v1 : Obj) (s s2 : Stack)
    (h : executeBinaryOperation op (v2 :: v1 :: s) = .ok s2) : ∃ w, s2 = w :: s := by
  simp only [executeBinaryOperation] at h
  split_ifs at h <;> first
    | exact executeBinaryIntegerOperation_ok op v1 v2 s s2 h
    | exact executeBinaryStringOperation_ok op v1 v2 s s2 h
    | exact Res.noConfusion h

/-- A successful integer comparison pushes one value. -/
theorem executeIntegerComparison_ok (op : Nat) (l r : Obj) (s s2 : Stack)
    (h : executeIntegerComparison op l r s = .ok s2) : ∃ w, s2 = w :: s := by
  unfold executeIntegerComparison at h
  split at h <;> first
    | exact Res.noConfusion h
    | (split_ifs at h <;> first
        | exact ⟨_, push_ok _ _ _ h⟩
        | exact Res.noConfusion h)

/-- A successful comparison pops two values and pushes one. -/
theorem executeComparison_ok (op : Nat) (v2 v1 : Obj) (s s2 : Stack)
    (h : executeComparison op (v2 :: v1 :: s) = .ok s2) : ∃ w, s2 = w :: s := by
  simp only [executeComparison] at h
  split_ifs at h <;> first
    | exact executeIntegerComparison_ok op v1 v2 s s2 h
    | exact ⟨_, push_ok _ _ _ h⟩
    | exact Res.noConfusion h

/-- A successful bang pops one value and pushes one. -/
theorem executeBangOperator_ok (v : Obj) (s s2 : Stack)
    (h : executeBangOperator (v :: s) = .ok s2) : ∃ w, s2 = w :: s := by
  simp only [executeBangOperator] at h
  split at h <;> exact ⟨_, push_ok _ _ _ h⟩

/-- A successful minus pops one value and pushes one. -/
theorem executeMinusOperator_ok (v : Obj) (s s2 : Stack)
    (h : executeMinusOperator (v :: s) = .ok s2) : ∃ w, s2 = w :: s := by
  simp only [executeMinusOperator] at h
  split_ifs at h <;> first
    | exact Res.noConfusion h
    | (split at h <;> first
        | exact ⟨_, push_ok _ _ _ h⟩
        | exact Res.noConfusion h)

/-- OpConstant pushes one value (or fails). -/
theorem exprEffect_const (a b : Nat) : ExprEffect [0, a, b] := by
  intro K rest s
  have hred : exec K ([0, a, b] ++ rest) s =
      (match K.get? (a * 256 + b) with
       | none => Res.crash
       | some obj =>
           match push obj s with
           | .ok s2 => exec K rest s2
           | .err m => Res.err m
           | .crash => Res.crash) := rfl
  rw [hred]
  cases hk : K.get? (a * 256 + b) with
  | none => right; right; rfl
  | some obj =>
      simp only [hk]
      cases hp : push obj s with
      | ok s2 =>
          left
          refine ⟨obj, ?_⟩
          rw [push_ok obj s s2 hp]
      | err m => right; left; exact ⟨m, rfl⟩
      | crash => exact absurd hp (fun hc => push_not_crash obj s hc)

/-- OpTrue pushes one value (or overflows). -/
theorem exprEffect_true : ExprEffect [6] := by
  intro K rest s
  have hred : exec K ([6] ++ rest) s =
      (match push (Obj.boolean true) s with
       | .ok s2 => exec K rest s2
       | .err m => Res.err m
       | .crash => Res.crash) := rfl
  rw [hred]
  cases hp : push (Obj.boolean true) s with
  | ok s2 =>
      left
      refine ⟨Obj.boolean true, ?_⟩
      rw [push_ok _ s s2 hp]
  | err m => right; left; exact ⟨m, rfl⟩
  | crash => exact absurd hp (fun hc => push_not_crash _ s hc)

/-- OpFalse pushes one value (or overflows). -/
theorem exprEffect_false : ExprEffect [7] := by
  intro K rest s
  have hred : exec K ([7] ++ rest) s =
      (match push (Obj.boolean false) s with
       | .ok s2 => exec K rest s2
       | .err m => Res.err m
       | .crash => Res.crash) := rfl
  rw [hred]
  cases hp : push (Obj.boolean false) s with
  | ok s2 =>
      left
      refine ⟨Obj.boolean false, ?_⟩
      rw [push_ok _ s s2 hp]
  | err m => right; left; exact ⟨m, rfl⟩
  | crash => exact absurd hp (fun hc => push_not_crash _ s hc)

/-- Compiled code for a unary operator after its operand keeps the
one-value effect. -/
theorem exprEffect_unCompose (opb : Nat) (step : Stack → Res Stack)
    (hred : ∀ (K : List Obj) (rest : List Nat) (st : Stack),
      exec K (opb :: rest) st =
        (match step st with
         | .ok s2 => exec K rest s2
         | .err m => Res.err m
         | .crash => Res.crash))
    (hshape : ∀ v s s2, step (v :: s) = .ok s2 → ∃ w, s2 = w :: s)
    (δr : List Nat) (hr : ExprEffect δr) : ExprEffect (δr ++ [opb]) := by
  intro K rest s
  have hassoc : (δr ++ [opb]) ++ rest = δr ++ (opb :: rest) := by simp
  rw [hassoc]
  rcases hr K (opb :: rest) s with ⟨v, hv⟩ | ⟨m, hm⟩ | hc
  · rw [hv, hred]
    cases he : step (v :: s) with
    | ok s2 =>
        obtain ⟨w, rfl⟩ := hshape v s s2 he
        left
        exact ⟨w, rfl⟩
    | err m => right; left; exact ⟨m, rfl⟩
    | crash => right; right; rfl
  · right; left; exact ⟨m, hm⟩
  · right; right; exact hc

/-- Compiled code for a binary operator after its two operands keeps the
one-value effect. -/
theorem exprEffect_binCompose (opb : Nat) (step : Stack → Res Stack)
    (hred : ∀ (K : List Obj) (rest : List Nat) (st : Stack),
      exec K (opb :: rest) st =
        (match step st with
         | .ok s2 => exec K rest s2
         | .err m => Res.err m
         | .crash => Res.crash))
    (hshape : ∀ v2 v1 s s2, step (v2 :: v1 :: s) = .ok s2 → ∃ w, s2 = w :: s)
    (δl δr : List Nat) (hl : ExprEffect δl) (hr : ExprEffect δr) :
    ExprEffect (δl ++ (δr ++ [opb])) := by
  intro K rest s
  have hassoc : (δl ++ (δr ++ [opb])) ++ rest = δl ++ (δr ++ (opb :: rest)) := by simp
  rw [hassoc]
  rcases hl K (δr ++ (opb :: rest)) s with ⟨v1, hv1⟩ | ⟨m, hm⟩ | hc
  · rw [hv1]
    rcases hr K (opb :: rest) (v1 :: s) with ⟨v2, hv2⟩ | ⟨m, hm⟩ | hc
    · rw [hv2, hred]
      cases he : step (v2 :: v1 :: s) with
      | ok s2 =>
          obtain ⟨w, rfl⟩ := hshape v2 v1 s s2 he
          left
          exact ⟨w, rfl⟩
      | err m => right; left; exact ⟨m, rfl⟩
      | crash => right; right; rfl
    · right; left; exact ⟨m, hm⟩
    · right; right; exact hc
  · right; left; exact ⟨m, hm⟩
  · right; right; exact hc

/-- Statement code: expression code followed by OpPop is stack-neutral. -/
theorem stmtEffect_pop (δ : List Nat) (hδ : ExprEffect δ) : StmtEffect (δ ++ [2]) := by
  intro K rest s
  have hassoc : (δ ++ [2]) ++ rest = δ ++ ((2 : Nat) :: rest) := by simp
  rw [hassoc]
  rcases hδ K ((2 : Nat) :: rest) s with ⟨v, hv⟩ | ⟨m, hm⟩ | hc
  · rw [hv]
    left
    rfl
  · right; left; exact ⟨m, hm⟩
  · right; right; exact hc

/-- The empty statement sequence is stack-neutral. -/
theorem stmtEffect_nil : StmtEffect [] := by
  intro K rest s
  left
  rfl

/-- Stack-neutral code composes. -/
theorem stmtEffect_append (a b : List Nat) (ha : StmtEffect a) (hb : StmtEffect b) :
    StmtEffect (a ++ b) := by
  intro K rest s
  have hassoc : (a ++ b) ++ rest = a ++ (b ++ rest) := by simp
  rw [hassoc]
  rcases ha K (b ++ rest) s with h | ⟨m, hm⟩ | hc
  · rw [h]
    exact hb K rest s
  · right; left; exact ⟨m, hm⟩
  · right; right; exact hc

/-- A defined nullary opcode encodes to its single byte. -/
theorem make_nullary (opb : Nat) (d : Definition) (hop : definitions opb = some d)
    (hw : d.operandWidths = []) : Make opb [] = [opb] := by
  have h1 : Make opb [] = opb :: operandSection d.operandWidths [] := by
    rw [Make, hop]
  rw [h1, hw]
  rfl

/-- OpConstant's encoding pushes one value when run. -/
theorem exprEffect_makeConst (o : Nat) : ExprEffect (Make OpConstant [o]) := by
  have h : Make OpConstant [o] = [0, o % 65536 / 256, o % 256] := rfl
  rw [h]
  exact exprEffect_const _ _

/-- Extending compiled code for two operands with a nullary opcode. -/
theorem compiledCode_extend2 (c c1 c2 : Compiler) (δl δr : List Nat) (opb : Nat)
    (d : Definition)
    (hl : c1.instructions = c.instructions ++ δl)
    (hr : c2.instructions = c1.instructions ++ δr)
    (hbl : ∀ b ∈ δl, b < 256) (hbr : ∀ b ∈ δr, b < 256)
    (hdl : DecExt δl) (hdr : DecExt δr)
    (hop : definitions opb = some d) (hw : d.operandWidths = [])
    (heff : ExprEffect (δl ++ (δr ++ [opb]))) :
    CompiledCode c (emit c2 opb []) := by
  obtain ⟨h256, _⟩ := defShape opb d hop
  have hdop : DecExt [opb] := by
    have := decExt_make opb d [] hop (by rw [hw])
    rwa [make_nullary opb d hop hw] at this
  refine ⟨δl ++ (δr ++ [opb]), ?_, ?_, ?_, heff⟩
  · show c2.instructions ++ Make opb [] = c.instructions ++ (δl ++ (δr ++ [opb]))
    rw [make_nullary opb d hop hw, hr, hl]
    simp [List.append_assoc]
  · intro b hb
    rcases List.mem_append.mp hb with hb | hb
    · exact hbl b hb
    · rcases List.mem_append.mp hb with hb | hb
      · exact hbr b hb
      · rcases List.mem_singleton.mp hb with rfl
        exact h256
  · exact decExt_append _ _ hdl (decExt_append _ _ hdr hdop)

/-- Extending compiled code for one operand with a nullary opcode. -/
theorem compiledCode_extend1 (c c1 : Compiler) (δr : List Nat) (opb : Nat)
    (d : Definition)
    (h1 : c1.instructions = c.instructions ++ δr)
    (hby : ∀ b ∈ δr, b < 256) (hd : DecExt δr)
    (hop : definitions opb = some d) (hw : d.operandWidths = [])
    (heff : ExprEffect (δr ++ [opb])) :
    CompiledCode c (emit c1 opb []) := by
  obtain ⟨h256, _⟩ := defShape opb d hop
  have hdop : DecExt [opb] := by
    have := decExt_make opb d [] hop (by rw [hw])
    rwa [make_nullary opb d hop hw] at this
  refine ⟨δr ++ [opb], ?_, ?_, ?_, heff⟩
  · show c1.instructions ++ Make opb [] = c.instructions ++ (δr ++ [opb])
    rw [make_nullary opb d hop hw, h1]
    simp [List.append_assoc]
  · intro b hbm
    rcases List.mem_append.mp hbm with hbm | hbm
    · exact hby b hbm
    · rcases List.mem_singleton.mp hbm with rfl
      exact h256
  · exact decExt_append _ _ hd hdop

/-- Compiling an expression appends byte code that decodes cleanly and
pushes exactly one value when run. -/
theorem compileExpr_emits (e : Expr) : ∀ (c c' : Compiler),
    compileExpr e c = .ok c' → CompiledCode c c' := by
  induction e with
  | integerLiteral value =>
      intro c c' h
      injection h with h
      subst h
      refine ⟨Make OpConstant [c.constants.length], rfl, ?_, ?_, ?_⟩
      · exact make_bytes 0 ⟨"OpConstant", [2]⟩ _ rfl
      · exact decExt_make 0 ⟨"OpConstant", [2]⟩ _ rfl rfl
      · exact exprEffect_makeConst _
  | boolean value =>
      intro c c' h
      cases value with
      | false =>
          injection h with h
          subst h
          refine ⟨Make OpFalse [], rfl, ?_, ?_, ?_⟩
          · exact make_bytes 7 ⟨"OpFalse", []⟩ _ rfl
          · exact decExt_make 7 ⟨"OpFalse", []⟩ _ rfl rfl
          · have he : Make OpFalse [] = [7] := rfl
            rw [he]
            exact exprEffect_false
      | true =>
          injection h with h
          subst h
          refine ⟨Make OpTrue [], rfl, ?_, ?_, ?_⟩
          · exact make_bytes 6 ⟨"OpTrue", []⟩ _ rfl
          · exact decExt_make 6 ⟨"OpTrue", []⟩ _ rfl rfl
          · have he : Make OpTrue [] = [6] := rfl
            rw [he]
            exact exprEffect_true
  | prefixExpression operator right ih =>
      intro c c' h
      simp only [compileExpr] at h
      cases hr : compileExpr right c with
      | error e0 => rw [hr] at h; exact Except.noConfusion h
      | ok c1 =>
          simp only [hr] at h
          obtain ⟨δr, hδ, hbytes, hdec, heff⟩ := ih c c1 hr
          split_ifs at h with h1 h2 <;> first
            | exact Except.noConfusion h
            | (injection h with h
               subst h
               first
                 | exact compiledCode_extend1 c c1 δr OpBang ⟨"OpBang", []⟩ hδ hbytes hdec
                     rfl rfl
                     (exprEffect_unCompose 12 executeBangOperator (fun K rest st => rfl)
                       executeBangOperator_ok δr heff)
                 | exact compiledCode_extend1 c c1 δr OpMinus ⟨"OpMinus", []⟩ hδ hbytes hdec
                     rfl rfl
                     (exprEffect_unCompose 11 executeMinusOperator (fun K rest st => rfl)
                       executeMinusOperator_ok δr heff))
  | infixExpression operator left right ihl ihr =>
      intro c c' h
      simp only [compileExpr] at h
      by_cases hlt : operator = "<"
      · rw [if_pos hlt] at h
        cases hr : compileExpr right c with
        | error e0 => rw [hr] at h; exact Except.noConfusion h
        | ok c1 =>
            simp only [hr] at h
            cases hl : compileExpr left c1 with
            | error e0 => rw [hl] at h; exact Except.noConfusion h
            | ok c2 =>
                simp only [hl] at h
                injection h with h
                subst h
                obtain ⟨δR, hδR, hbR, hdR, heR⟩ := ihr c c1 hr
                obtain ⟨δL, hδL, hbL, hdL, heL⟩ := ihl c1 c2 hl
                exact compiledCode_extend2 c c1 c2 δR δL OpGreaterThan
                  ⟨"OpGreaterThan", []⟩ hδR hδL hbR hbL hdR hdL rfl rfl
                  (exprEffect_binCompose 10 (executeComparison 10) (fun K rest st => rfl)
                    (fun v2 v1 s s2 => executeComparison_ok 10 v2 v1 s s2) δR δL heR heL)
      · rw [if_neg hlt] at h
        cases hl : compileExpr left c with
        | error e0 => rw [hl] at h; exact Except.noConfusion h
        | ok c1 =>
            simp only [hl] at h
            cases hr : compileExpr right c1 with
            | error e0 => rw [hr] at h; exact Except.noConfusion h
            | ok c2 =>
                simp only [hr] at h
                obtain ⟨δL, hδL, hbL, hdL, heL⟩ := ihl c c1 hl
                obtain ⟨δR, hδR, hbR, hdR, heR⟩ := ihr c1 c2 hr
                split_ifs at h <;> first
                  | exact Except.noConfusion h
                  | (injection h with h
                     subst h
                     first
                       | exact compiledCode_extend2 c c1 c2 δL δR OpAdd ⟨"OpAdd", []⟩
                           hδL hδR hbL hbR hdL hdR rfl rfl
                           (exprEffect_binCompose 1 (executeBinaryOperation 1)
                             (fun K rest st => rfl)
                             (fun v2 v1 s s2 => executeBinaryOperation_ok 1 v2 v1 s s2)
                             δL δR heL heR)
                       | exact compiledCode_extend2 c c1 c2 δL δR OpSub ⟨"OpSub", []⟩
                           hδL hδR hbL hbR hdL hdR rfl rfl
                           (exprEffect_binCompose 3 (executeBinaryOperation 3)
                             (fun K rest st => rfl)
                             (fun v2 v1 s s2 => executeBinaryOperation_ok 3 v2 v1 s s2)
                             δL δR heL heR)
                       | exact compiledCode_extend2 c c1 c2 δL δR OpDiv ⟨"OpDiv", []⟩
                           hδL hδR hbL hbR hdL hdR rfl rfl
                           (exprEffect_binCompose 5 (executeBinaryOperation 5)
                             (fun K rest st => rfl)
                             (fun v2 v1 s s2 => executeBinaryOperation_ok 5 v2 v1 s s2)
                             δL δR heL heR)
                       | exact compiledCode_extend2 c c1 c2 δL δR OpMul ⟨"OpMul", []⟩
                           hδL hδR hbL hbR hdL hdR rfl rfl
                           (exprEffect_binCompose 4 (executeBinaryOperation 4)
                             (fun K rest st => rfl)
                             (fun v2 v1 s s2 => executeBinaryOperation_ok 4 v2 v1 s s2)
                             δL δR heL heR)
                       | exact compiledCode_extend2 c c1 c2 δL δR OpGreaterThan
                           ⟨"OpGreaterThan", []⟩ hδL hδR hbL hbR hdL hdR rfl rfl
                           (exprEffect_binCompose 10 (executeComparison 10)
                             (fun K rest st => rfl)
                             (fun v2 v1 s s2 => executeComparison_ok 10 v2 v1 s s2)
                             δL δR heL heR)
                       | exact compiledCode_extend2 c c1 c2 δL δR OpEqual ⟨"OpEqual", []⟩
                           hδL hδR hbL hbR hdL hdR rfl rfl
                           (exprEffect_binCompose 8 (executeComparison 8)
                             (fun K rest st => rfl)
                             (fun v2 v1 s s2 => executeComparison_ok 8 v2 v1 s s2)
                             δL δR heL heR)
                       | exact compiledCode_extend2 c c1 c2 δL δR OpNotEqual
                           ⟨"OpNotEqual", []⟩ hδL hδR hbL hbR hdL hdR rfl rfl
                           (exprEffect_binCompose 9 (executeComparison 9)
                             (fun K rest st => rfl)
                             (fun v2 v1 s s2 => executeComparison_ok 9 v2 v1 s s2)
                             δL δR heL heR))

/-- Compiling an expression statement appends stack-neutral code that
decodes cleanly. -/
theorem compileStmt_emits (st : Stmt) (c c' : Compiler)
    (h : compileStmt st c = .ok c') : CompiledStmts c c' := by
  obtain ⟨e⟩ := st
  simp only [compileStmt] at h
  cases he : compileExpr e c with
  | error e0 => rw [he] at h; exact Except.noConfusion h
  | ok c1 =>
      simp only [he] at h
      injection h with h
      subst h
      obtain ⟨δ, hδ, hbytes, hdec, heff⟩ := compileExpr_emits e c c1 he
      refine ⟨δ ++ [2], ?_, ?_, ?_, stmtEffect_pop δ heff⟩
      · show c1.instructions ++ Make OpPop [] = c.instructions ++ (δ ++ [2])
        have hm : Make OpPop [] = [2] := rfl
        rw [hm, hδ, List.append_assoc]
      · intro b hbm
        rcases List.mem_append.mp hbm with hbm | hbm
        · exact hbytes b hbm
        · rcases List.mem_singleton.mp hbm with rfl
          norm_num
      · refine decExt_append _ _ hdec ?_
        have hm : ([2] : List Nat) = Make OpPop [] := rfl
        rw [hm]
        exact decExt_make 2 ⟨"OpPop", []⟩ [] rfl rfl

/-- Compiling a statement sequence appends stack-neutral code that
decodes cleanly. -/
theorem compileProgram_emits (prog : List Stmt) : ∀ (c c' : Compiler),
    compileProgram prog c = .ok c' → CompiledStmts c c' := by
  induction prog with
  | nil =>
      intro c c' h
      injection h with h
      subst h
      refine ⟨[], by simp, by simp, ?_, stmtEffect_nil⟩
      intro rest ps hp
      exact ⟨[], by simpa⟩
  | cons st rest ih =>
      intro c c' h
      simp only [compileProgram] at h
      cases hs : compileStmt st c with
      | error e0 => rw [hs] at h; exact Except.noConfusion h
      | ok c1 =>
          simp only [hs] at h
          obtain ⟨δ1, hδ1, hb1, hd1, he1⟩ := compileStmt_emits st c c1 hs
          obtain ⟨δ2, hδ2, hb2, hd2, he2⟩ := ih c1 c' h
          refine ⟨δ1 ++ δ2, ?_, ?_, decExt_append _ _ hd1 hd2,
            stmtEffect_append _ _ he1 he2⟩
          · rw [hδ2, hδ1, List.append_assoc]
          · intro b hbm
            rcases List.mem_append.mp hbm with hbm | hbm
            · exact hb1 b hbm
            · exact hb2 b hbm

/- ===================== claim theorems ================================== -/

/-- C4: for an infix `<` the compiler emits the right operand's code,
then the left operand's code, then a single GreaterThan opcode (no
less-than opcode exists in the table), and compiling and running `1 < 2`
yields True. -/
theorem c4_less_than (l r : Expr) (c c1 c2 : Compiler)
    (hr : compileExpr r c = .ok c1) (hl : compileExpr l c1 = .ok c2) :
    compileExpr (Expr.infixExpression "<" l r) c = .ok (emit c2 OpGreaterThan []) ∧
    (∃ δr δl, c1.instructions = c.instructions ++ δr ∧
      c2.instructions = c1.instructions ++ δl ∧
      (emit c2 OpGreaterThan []).instructions =
        c.instructions ++ (δr ++ (δl ++ [OpGreaterThan]))) ∧
    (∃ c3, compileExpr
        (Expr.infixExpression "<" (Expr.integerLiteral 1) (Expr.integerLiteral 2))
        newCompiler = .ok c3 ∧
      exec c3.constants c3.instructions [] = .ok [Obj.boolean true]) := by
  refine ⟨?_, ?_, ?_⟩
  · simp only [compileExpr]
    rw [if_pos trivial]
    simp only [hr, hl]
  · obtain ⟨δR, hδR, _, _, _⟩ := compileExpr_emits r c c1 hr
    obtain ⟨δL, hδL, _, _, _⟩ := compileExpr_emits l c1 c2 hl
    refine ⟨δR, δL, hδR, hδL, ?_⟩
    show c2.instructions ++ Make OpGreaterThan [] = _
    have hm : Make OpGreaterThan [] = [OpGreaterThan] := rfl
    rw [hm, hδL, hδR]
    simp [List.append_assoc]
  · exact ⟨⟨[0, 0, 0, 0, 0, 1, 10], [Obj.integer 2, Obj.integer 1]⟩, rfl, rfl⟩

/-- C4 witness at the concrete expression `1 < 2`. -/
theorem c4_less_than_witness :
    compileExpr (Expr.infixExpression "<" (Expr.integerLiteral 1) (Expr.integerLiteral 2))
        newCompiler =
      .ok (emit ⟨[0, 0, 0, 0, 0, 1], [Obj.integer 2, Obj.integer 1]⟩ OpGreaterThan []) :=
  (c4_less_than (Expr.integerLiteral 1) (Expr.integerLiteral 2) newCompiler
    ⟨[0, 0, 0], [Obj.integer 2]⟩ ⟨[0, 0, 0, 0, 0, 1], [Obj.integer 2, Obj.integer 1]⟩
    rfl rfl).1

/-- C5: every instruction stream produced by the compiler decodes
instruction by instruction, and re-encoding each decoded pair with Make,
concatenated in order, reproduces the stream byte-for-byte. -/
theorem c5_roundtrip (prog : List Stmt) (c' : Compiler)
    (hc : compileProgram prog newCompiler = .ok c') :
    ∃ ps, decode c'.instructions = .ok ps ∧ encodePairs ps = c'.instructions := by
  obtain ⟨δ, hδ, hbytes, hdec, _⟩ := compileProgram_emits prog newCompiler c' hc
  have hδ2 : c'.instructions = δ := by simpa using hδ
  obtain ⟨ps2, hps⟩ := hdec [] [] decode_nil
  rw [List.append_nil] at hps
  refine ⟨ps2, ?_, ?_⟩
  · rw [hδ2]
    simpa using hps
  · rw [hδ2]
    exact decode_encode ps2 δ hbytes (by simpa using hps)

/-- C5 witness at the concrete program `1 + 2;`. -/
theorem c5_roundtrip_witness :
    ∃ ps, decode ([0, 0, 0, 0, 0, 1, 1, 2] : List Nat) = .ok ps ∧
      encodePairs ps = [0, 0, 0, 0, 0, 1, 1, 2] :=
  c5_roundtrip
    [Stmt.expressionStatement (Expr.infixExpression "+" (Expr.integerLiteral 1)
      (Expr.integerLiteral 2))]
    ⟨[0, 0, 0, 0, 0, 1, 1, 2], [Obj.integer 1, Obj.integer 2]⟩ rfl

/-- C7: an ExpressionStatement compiles to the expression's code followed
by exactly one Pop opcode, and running the instructions a compiled
statement sequence added, when it succeeds, returns the stack to its
initial state. -/
theorem c7_statement_pop (e : Expr) (c0 c1 : Compiler) (prog : List Stmt)
    (d0 d1 : Compiler) (s s2 : Stack)
    (hstmt : compileStmt (Stmt.expressionStatement e) c0 = .ok c1)
    (hprog : compileProgram prog d0 = .ok d1)
    (hrun : exec d1.constants (d1.instructions.drop d0.instructions.length) s = .ok s2) :
    (∃ ce, compileExpr e c0 = .ok ce ∧ c1.instructions = ce.instructions ++ [OpPop]) ∧
    s2 = s := by
  constructor
  · simp only [compileStmt] at hstmt
    cases he : compileExpr e c0 with
    | error e0 => rw [he] at hstmt; exact Except.noConfusion hstmt
    | ok ce =>
        simp only [he] at hstmt
        injection hstmt with h2
        subst h2
        refine ⟨ce, rfl, ?_⟩
        show ce.instructions ++ Make OpPop [] = ce.instructions ++ [OpPop]
        rfl
  · obtain ⟨δ, hδ, _, _, heff⟩ := compileProgram_emits prog d0 d1 hprog
    rw [hδ, List.drop_left] at hrun
    rcases heff d1.constants [] s with h | ⟨m, hm⟩ | hc
    · rw [List.append_nil] at h
      rw [h] at hrun
      injection hrun with h3
      exact h3.symm
    · rw [List.append_nil] at hm
      rw [hm] at hrun
      exact Res.noConfusion hrun
    · rw [List.append_nil] at hc
      rw [hc] at hrun
      exact Res.noConfusion hrun

/-- C7 witness at the concrete statement `1 + 2;` starting from an empty
stack. -/
theorem c7_statement_pop_witness :
    (∃ ce, compileExpr (Expr.infixExpression "+" (Expr.integerLiteral 1)
        (Expr.integerLiteral 2)) newCompiler = .ok ce ∧
      (⟨[0, 0, 0, 0, 0, 1, 1, 2], [Obj.integer 1, Obj.integer 2]⟩ : Compiler).instructions =
        ce.instructions ++ [OpPop]) ∧
    ([] : Stack) = [] :=
  c7_statement_pop
    (Expr.infixExpression "+" (Expr.integerLiteral 1) (Expr.integerLiteral 2))
    newCompiler ⟨[0, 0, 0, 0, 0, 1, 1, 2], [Obj.integer 1, Obj.integer 2]⟩
    [Stmt.expressionStatement (Expr.infixExpression "+" (Expr.integerLiteral 1)
      (Expr.integerLiteral 2))]
    newCompiler ⟨[0, 0, 0, 0, 0, 1, 1, 2], [Obj.integer 1, Obj.integer 2]⟩ [] [] rfl rfl rfl


/-- C1 counterexample: the claim says a mixed-kind binary operation
reports "unsupported types for binary operation: <L> <R>" with <L> the
left operand's kind; executing OpAdd with left operand a String and right
operand a Boolean instead reports "... BOOLEAN BOOLEAN", because the
dispatch reads both type tags from the right operand. -/
theorem c1_counterexample :
    executeBinaryOperation OpAdd [Obj.boolean true, Obj.string "a"] =
      Res.err "unsupported types for binary operation: BOOLEAN BOOLEAN" ∧
    "unsupported types for binary operation: BOOLEAN BOOLEAN" ≠
      "unsupported types for binary operation: STRING BOOLEAN" := by
  refine ⟨rfl, by decide⟩

/-- C1 (amended): for a binary opcode the VM pops right then left; two
Integers yield an Integer result (except Div by zero, which panics — see
C9); two Strings under OpAdd yield the concatenation; when the right
operand's kind is neither Integer nor String the VM errors "unsupported
types for binary operation: <R> <R>", both kind labels taken from the
right operand (the source reads leftType := right.Type()); and a mixed
pair whose right operand is an Integer (or a String, under OpAdd)
panics on a failed type assertion instead of producing that error. -/
theorem c1_binary_dispatch (op : Nat) (left right : Obj) (rest : Stack)
    (hop : op = OpAdd ∨ op = OpSub ∨ op = OpMul ∨ op = OpDiv) :
    (∀ l r, left = Obj.integer l → right = Obj.integer r → ¬(op = OpDiv ∧ r = 0) →
      ∃ v, executeBinaryOperation op (right :: left :: rest) = push (Obj.integer v) rest) ∧
    (∀ a b, left = Obj.string a → right = Obj.string b → op = OpAdd →
      executeBinaryOperation op (right :: left :: rest) = push (Obj.string (a ++ b)) rest) ∧
    (right.type ≠ INTEGER_OBJ → right.type ≠ STRING_OBJ →
      executeBinaryOperation op (right :: left :: rest) =
        Res.err ("unsupported types for binary operation: " ++ right.type ++ " " ++ right.type)) ∧
    ((∃ r, right = Obj.integer r) → (∀ l, left ≠ Obj.integer l) →
      executeBinaryOperation op (right :: left :: rest) = Res.crash) ∧
    ((∃ b, right = Obj.string b) → (∀ a, left ≠ Obj.string a) → op = OpAdd →
      executeBinaryOperation op (right :: left :: rest) = Res.crash) := by
  refine ⟨?_, ?_, ?_, ?_, ?_⟩
  · rintro l r rfl rfl hdiv
    rcases hop with rfl | rfl | rfl | rfl
    · exact ⟨wrap64 (l + r), rfl⟩
    · exact ⟨wrap64 (l - r), rfl⟩
    · exact ⟨wrap64 (l * r), rfl⟩
    · refine ⟨wrap64 (Int.tdiv l r), ?_⟩
      have hr : r ≠ 0 := by
        intro h
        exact hdiv ⟨rfl, h⟩
      simp [executeBinaryOperation, executeBinaryIntegerOperation, Obj.type,
        INTEGER_OBJ, OpAdd, OpSub, OpMul, OpDiv, hr]
  · rintro a b rfl rfl rfl
    rfl
  · intro h1 h2
    cases right with
    | integer v => exact absurd rfl h1
    | string v => exact absurd rfl h2
    | boolean v => rfl
    | null => rfl
    | array es => rfl
    | hash ps => rfl
    | compiledFunction a b c => rfl
  · rintro ⟨r, rfl⟩ hleft
    cases left with
    | integer l => exact absurd rfl (hleft l)
    | boolean b => rfl
    | string sv => rfl
    | null => rfl
    | array es => rfl
    | hash ps => rfl
    | compiledFunction a b c => rfl
  · rintro ⟨b, rfl⟩ hleft rfl
    cases left with
    | integer l => rfl
    | boolean bb => rfl
    | string sv => exact absurd rfl (hleft sv)
    | null => rfl
    | array es => rfl
    | hash ps => rfl
    | compiledFunction a b c => rfl

/-- C1 amended witness: two concrete Integers under OpAdd produce an
Integer. -/
theorem c1_binary_dispatch_witness :
    ∃ v, executeBinaryOperation OpAdd [Obj.integer 3, Obj.integer 2] =
      push (Obj.integer v) [] :=
  (c1_binary_dispatch OpAdd (Obj.integer 2) (Obj.integer 3) [] (Or.inl rfl)).1
    2 3 rfl rfl (by decide)

/-- C2: executing OpIndex pops the index first and the collection second;
for an Array collection and Integer index the VM pushes the element when
0 ≤ i < len and Null otherwise. -/
theorem c2_array_index (elements : List Obj) (i : Int) (rest : Stack) :
    opIndexStep (Obj.integer i :: Obj.array elements :: rest) =
      if 0 ≤ i ∧ i < (elements.length : Int)
      then push (elements.getD i.toNat Obj.null) rest
      else push Obj.null rest := by
  show executeIndexExpression (Obj.array elements) (Obj.integer i) rest = _
  rw [executeIndexExpression]
  simp only [Obj.type]
  rw [if_pos ⟨trivial, trivial⟩]
  simp only [executeArrayIndex]
  by_cases h : 0 ≤ i ∧ i < (elements.length : Int)
  · rw [if_neg (by omega), if_pos h]
    cases hg : elements.get? i.toNat with
    | none =>
        rw [List.get?_eq_none] at hg
        omega
    | some e =>
        rw [List.getD_eq_get?, hg]
        rfl
  · rw [if_pos (by omega), if_neg h]

/-- C3 counterexample: a Call executed with the frame stack already at
MaxFrames = 1024 does not surface any error to the caller — in
particular not "frame overflow" — but panics on the out-of-range frame
write. -/
theorem c3_counterexample :
    callFunction
      { stack := [Obj.compiledFunction [] 0 0], sp := 1,
        frames := List.replicate 1024 (NewFrame (Obj.compiledFunction [] 0 0) 0) } 0 =
      Res.crash ∧
    ¬∃ msg, callFunction
      { stack := [Obj.compiledFunction [] 0 0], sp := 1,
        frames := List.replicate 1024 (NewFrame (Obj.compiledFunction [] 0 0) 0) } 0 =
      Res.err msg := by
  have h : callFunction
      { stack := [Obj.compiledFunction [] 0 0], sp := 1,
        frames := List.replicate 1024 (NewFrame (Obj.compiledFunction [] 0 0) 0) } 0 =
      Res.crash := by
    rfl
  refine ⟨h, ?_⟩
  rintro ⟨msg, hm⟩
  rw [h] at hm
  exact Res.noConfusion hm

/-- C3 (amended): a Call executed when the frame stack already holds
MaxFrames = 1024 frames aborts with a Go index-out-of-range panic — the
source's pushFrame performs no capacity check and no "frame overflow"
error exists — whereas pushing a value at sp = StackSize = 2048 does
return the error "stack overflow". -/
theorem c3_frame_overflow (vm : VMC) (numArgs : Nat) (ins : List Nat) (nl np : Nat)
    (obj : Obj) (s : Stack)
    (hframes : vm.frames.length = MaxFrames)
    (hcallee : readSlot vm.stack ((vm.sp : Int) - 1 - numArgs) =
      .ok (some (Obj.compiledFunction ins nl np)))
    (harity : np = numArgs)
    (hs : s.length = StackSize) :
    callFunction vm numArgs = Res.crash ∧ push obj s = Res.err "stack overflow" := by
  constructor
  · rw [callFunction, hcallee]
    simp only [harity]
    rw [if_neg (by simp)]
    rw [pushFrame, hframes]
    simp
  · rw [push, if_pos (by omega)]

/-- C3 amended witness at a concrete full frame stack and a concrete full
value stack. -/
theorem c3_frame_overflow_witness :
    callFunction
      { stack := [Obj.compiledFunction [] 0 0], sp := 1,
        frames := List.replicate 1024 (NewFrame (Obj.compiledFunction [] 0 0) 0) } 0 =
      Res.crash ∧
    push Obj.null (List.replicate 2048 Obj.null) = Res.err "stack overflow" :=
  c3_frame_overflow
    { stack := [Obj.compiledFunction [] 0 0], sp := 1,
      frames := List.replicate 1024 (NewFrame (Obj.compiledFunction [] 0 0) 0) }
    0 [] 0 0 Obj.null (List.replicate 2048 Obj.null)
    (by rw [List.length_replicate]; rfl) rfl rfl (by rw [List.length_replicate]; rfl)

/-- C6: Define immediately followed by Resolve returns the defined
symbol; its index is the pre-Define numDefinitions, i.e. the post-Define
counter minus one; and its scope is Global exactly when the table has no
outer, Local otherwise. -/
theorem c6_define_resolve (st : SymbolTable) (n : String) :
    (st.Define n).1.Resolve n = some (st.Define n).2 ∧
    (st.Define n).2.index = (st.Define n).1.numDefinitions - 1 ∧
    (st.Define n).1.numDefinitions = st.numDefinitions + 1 ∧
    (st.Define n).2.scope = (if (st.outer).isNone then GlobalScope else LocalScope) := by
  cases st <;>
    refine ⟨?_, ?_, ?_, ?_⟩ <;>
      simp [SymbolTable.Define, SymbolTable.Resolve, lookupStore, SymbolTable.outer,
        SymbolTable.numDefinitions, Option.isNone]

/-- C8: the codec's definition table names the SetGlobal opcode
"OpGetGlobal" rather than "OpSetGlobal", so a disassembled stream
containing SetGlobal renders that instruction with the label
OpGetGlobal. -/
theorem c8_setglobal_mislabel :
    definitions OpSetGlobal = some ⟨"OpGetGlobal", [2]⟩ ∧
    (definitions OpSetGlobal).map Definition.name ≠ some "OpSetGlobal" ∧
    instructionsString (Make OpSetGlobal [5]) = .ok "0000 OpGetGlobal 5\n" := by
  refine ⟨rfl, by decide, ?_⟩
  show instructionsStringAux 0 (Make OpSetGlobal [5]) = _
  rw [show Make OpSetGlobal [5] = [17, 0, 5] from rfl]
  have hd : definitions 17 = some ⟨"OpGetGlobal", [2]⟩ := rfl
  have hr : readOperandsAux [2] [0, 5] = Res.ok ([5], 2) := rfl
  have h0 : instructionsStringAux 3 ([] : List Nat) = Res.ok "" := by
    rw [instructionsStringAux.eq_def]
  rw [instructionsStringAux.eq_def]
  norm_num [hd, hr, h0]
  rfl

/-- C9 counterexample: at left = MinInt64 and right = -1 the code pushes
the two's-complement-wrapped quotient MinInt64 itself, which is not the
truncation-toward-zero quotient 2^63, so the unqualified "truncation
toward zero for every nonzero right operand" reading is false. -/
theorem c9_counterexample :
    executeBinaryOperation OpDiv [Obj.integer (-1), Obj.integer (-(2 ^ 63))] =
      push (Obj.integer (-(2 ^ 63))) [] ∧
    (-(2 ^ 63) : Int) ≠ Int.tdiv (-(2 ^ 63)) (-1) := by
  refine ⟨rfl, by decide⟩

/-- C9 (amended): integer Div is unguarded — a zero right operand panics
in the host runtime, producing none of the specified runtime errors —
and for a nonzero right operand the VM pushes Integer(left / right) with
truncation toward zero, except at left = MinInt64 with right = -1, where
Go's two's-complement overflow wraps the quotient back to MinInt64. -/
theorem c9_div (l r : Int) (rest : Stack)
    (hl : -(2 ^ 63) ≤ l ∧ l < 2 ^ 63) (hr64 : -(2 ^ 63) ≤ r ∧ r < 2 ^ 63)
    (hr : r ≠ 0) :
    executeBinaryOperation OpDiv (Obj.integer 0 :: Obj.integer l :: rest) = Res.crash ∧
    (¬(l = -(2 ^ 63) ∧ r = -1) →
      executeBinaryOperation OpDiv (Obj.integer r :: Obj.integer l :: rest) =
        push (Obj.integer (Int.tdiv l r)) rest) ∧
    (l = -(2 ^ 63) → r = -1 →
      executeBinaryOperation OpDiv (Obj.integer r :: Obj.integer l :: rest) =
        push (Obj.integer (-(2 ^ 63))) rest) := by
  refine ⟨?_, ?_, ?_⟩
  · simp [executeBinaryOperation, executeBinaryIntegerOperation, Obj.type,
      INTEGER_OBJ, OpAdd, OpSub, OpMul, OpDiv]
  · intro hnot
    have hrange := tdiv_in_range l r hl hr64 hr hnot
    simp [executeBinaryOperation, executeBinaryIntegerOperation, Obj.type,
      INTEGER_OBJ, OpAdd, OpSub, OpMul, OpDiv, hr, wrap64_eq_self _ hrange]
  · rintro rfl rfl
    have hwrap : wrap64 9223372036854775808 = -9223372036854775808 := by decide
    simp [executeBinaryOperation, executeBinaryIntegerOperation, Obj.type,
      INTEGER_OBJ, OpAdd, OpSub, OpMul, OpDiv, hwrap]

/-- C9 witness: 7 / 0 panics and 7 / 2 pushes Integer 3. -/
theorem c9_div_witness :
    executeBinaryOperation OpDiv [Obj.integer 0, Obj.integer 7] = Res.crash ∧
    executeBinaryOperation OpDiv [Obj.integer 2, Obj.integer 7] =
      push (Obj.integer (Int.tdiv 7 2)) [] :=
  ⟨(c9_div 7 2 [] (by norm_num) (by norm_num) (by norm_num)).1,
   (c9_div 7 2 [] (by norm_num) (by norm_num) (by norm_num)).2.1 (by norm_num)⟩

/-- C10: an opcode byte absent from the definition table is silently
swallowed by Make (empty byte sequence, no error path exists in its
signature) while Lookup on the same byte reports "opcode <op> not
defined". -/
theorem c10_make_lookup (op : Nat) (operands : List Nat) (h : definitions op = none) :
    Make op operands = [] ∧
    Lookup op = .error ("opcode " ++ toString op ++ " not defined") := by
  rw [Make, Lookup, h]
  exact ⟨rfl, rfl⟩

/-- C10 witness at the undefined opcode byte 200. -/
theorem c10_make_lookup_witness :
    Make 200 [1, 2] = [] ∧
    Lookup 200 = .error ("opcode " ++ toString 200 ++ " not defined") :=
  c10_make_lookup 200 [1, 2] rfl

end Monkey
